import Mathlib

/-!
# Verification of `proc-mounts` (pop-os/proc-mounts)

A shallow embedding of the parsing, querying and caching logic of the
`proc-mounts` Rust crate, together with proofs about the claims of its
specification.

Strings are modelled at the byte level as `List Nat` (each element a byte
value `< 256`); this matches the Rust code, which operates on the bytes of
`&str` values (`value.bytes()`, `OsString::from_vec`,
`as_os_str().as_bytes()`).  Whitespace is modelled as ASCII whitespace
(the characters recognised by `char::is_whitespace` in the ASCII range);
the `/proc/mounts` and `/proc/swaps` grammars are ASCII-delimited.
Rust `PathBuf`/`OsString` values are raw byte lists; path equality is
byte equality (paths produced by these parsers are compared verbatim).
-/

namespace ProcMounts

deriving instance DecidableEq for Except

/-- ASCII whitespace, as recognised by Rust's `char::is_whitespace` on the
ASCII range: space, `\t`, `\n`, vertical tab, form feed, `\r`. -/
def isWS (b : Nat) : Bool :=
  b = 32 || b = 9 || b = 10 || b = 11 || b = 12 || b = 13

/-- Worker for `str::split_whitespace`: `acc` holds the bytes of the
field currently being read, in reverse; a whitespace byte closes the
field (if any) and further whitespace is skipped. -/
def splitWSGo : List Nat → List Nat → List (List Nat)
  | [], acc => if acc = [] then [] else [acc.reverse]
  | b :: rest, acc =>
    if isWS b then
      if acc = [] then splitWSGo rest []
      else acc.reverse :: splitWSGo rest []
    else splitWSGo rest (b :: acc)

/-- Embeds `str::split_whitespace`: split a byte string on runs of
whitespace; no empty fields are produced. -/
def splitWS (l : List Nat) : List (List Nat) := splitWSGo l []

/-- Embeds `str::trim_start` at the byte level. -/
def trimStart (l : List Nat) : List Nat := l.dropWhile isWS

/-- Errors of the value parser (`MountInfo::parse_value` and the textually
identical `SwapInfo::parse_value`).  `invalidEscapeDigit` is the
`ParseIntError` wrapped in `Error::new(ErrorKind::Other, err)` produced when
`u32::from_str_radix(&(b as char).to_string(), 8)` fails; `truncatedEscape`
is `Error::new(ErrorKind::Other, "truncated octal code")`. -/
inductive VErr where
  | truncatedEscape
  | invalidEscapeDigit
deriving DecidableEq, Repr

/-- Embeds `u32::from_str_radix(&(b as char).to_string(), 8)`: succeeds exactly on
the single octal-digit characters `'0'`–`'7'` (bytes 48–55). -/
def octDigit (b : Nat) : Except VErr Nat :=
  if 48 ≤ b ∧ b ≤ 55 then .ok (b - 48) else .error .invalidEscapeDigit

/-- Embeds `MountInfo::parse_value` / `SwapInfo::parse_value` (the two
functions are textually identical): scan bytes; a backslash (92) enters a
`for _i in 0..3` loop in which each iteration demands a next byte
(`"truncated octal code"` if the input ends) and folds its octal-digit
value into `code` in base 8; the accumulated value, cast `as u8`
(i.e. reduced mod 256), becomes one output byte.  Every non-backslash byte
passes through unchanged.  The three loop iterations are unrolled here;
the iteration order (byte availability checked before digit validity, one
position at a time) is preserved exactly. -/
def parse_value (l : List Nat) : Except VErr (List Nat) :=
  match l with
  | [] => .ok []
  | b :: rest =>
    if b = 92 then
      match rest with
      | b1 :: b2 :: b3 :: rest' => do
        let d1 ← octDigit b1
        let d2 ← octDigit b2
        let d3 ← octDigit b3
        let out ← parse_value rest'
        .ok ((d1 * 64 + d2 * 8 + d3) % 256 :: out)
      | [b1, b2] => do
        let _ ← octDigit b1
        let _ ← octDigit b2
        .error .truncatedEscape
      | [b1] => do
        let _ ← octDigit b1
        .error .truncatedEscape
      | [] => .error .truncatedEscape
    else do
      let out ← parse_value rest
      .ok (b :: out)

/-! ## Numeric parsing (`str::parse::<i32/usize/isize>`)

Rust integer `FromStr`: an optional sign (`+` always allowed; `-` only for
signed types), then one or more ASCII decimal digits and nothing else; the
value must fit the target type's range, otherwise the parse fails. -/

def isDigit (b : Nat) : Bool := 48 ≤ b && b ≤ 57

/-- The numeric value of a nonempty all-digit byte string, `none`
otherwise. -/
def decValue (l : List Nat) : Option Nat :=
  if l ≠ [] ∧ l.all isDigit then
    some (l.foldl (fun a b => a * 10 + (b - 48)) 0)
  else none

/-- Embeds `str::parse::<i32>`: a `+` (43) or `-` (45) sign allowed, then digits;
the value must fit in `i32`. -/
def parseI32 (l : List Nat) : Option Int :=
  if l.head? = some 43 then
    (decValue l.tail).bind fun n =>
      if n ≤ 2147483647 then some (Int.ofNat n) else none
  else if l.head? = some 45 then
    (decValue l.tail).bind fun n =>
      if n ≤ 2147483648 then some (-(n : Int)) else none
  else
    (decValue l).bind fun n =>
      if n ≤ 2147483647 then some (Int.ofNat n) else none

/-- Embeds `str::parse::<usize>` (64-bit target): only a `+` sign is accepted. -/
def parseUsize (l : List Nat) : Option Nat :=
  if l.head? = some 43 then
    (decValue l.tail).bind fun n =>
      if n ≤ 18446744073709551615 then some n else none
  else
    (decValue l).bind fun n =>
      if n ≤ 18446744073709551615 then some n else none

/-- Embeds `str::parse::<isize>` (64-bit target). -/
def parseIsize (l : List Nat) : Option Int :=
  if l.head? = some 43 then
    (decValue l.tail).bind fun n =>
      if n ≤ 9223372036854775807 then some (Int.ofNat n) else none
  else if l.head? = some 45 then
    (decValue l.tail).bind fun n =>
      if n ≤ 9223372036854775808 then some (-(n : Int)) else none
  else
    (decValue l).bind fun n =>
      if n ≤ 9223372036854775807 then some (Int.ofNat n) else none

/-- Worker for the decimal representation, with an explicit fuel bound
(the number itself suffices, since a number has at most as many decimal
digits as its value). -/
def natToDecGo : Nat → Nat → List Nat
  | 0, n => [48 + n % 10]
  | fuel + 1, n =>
    if n < 10 then [48 + n] else natToDecGo fuel (n / 10) ++ [48 + n % 10]

/-- Decimal representation of a `Nat` (Rust `Display` for unsigned
integers). -/
def natToDec (n : Nat) : List Nat := natToDecGo n n

/-- Decimal representation of an `Int` (Rust `Display` for signed
integers): a leading `-` for negative values. -/
def intToDec (n : Int) : List Nat :=
  if n < 0 then 45 :: natToDec n.natAbs else natToDec n.toNat

/-- A UTF-8 continuation byte (`0x80`–`0xBF`). -/
def isCont (b : Nat) : Bool := 128 ≤ b && b ≤ 191

/-- Whether a byte sequence is valid UTF-8; embeds the success condition of
`OsStr::to_str` (`str::from_utf8`).  Standard UTF-8 validation table:
overlong encodings, surrogates and values above U+10FFFF are invalid. -/
def utf8Valid : List Nat → Bool
  | [] => true
  | b :: rest =>
    if b ≤ 0x7F then utf8Valid rest
    else if 0xC2 ≤ b && b ≤ 0xDF then
      match rest with
      | c :: r => isCont c && utf8Valid r
      | [] => false
    else if b = 0xE0 then
      match rest with
      | c :: d :: r => (0xA0 ≤ c && c ≤ 0xBF) && isCont d && utf8Valid r
      | _ => false
    else if (0xE1 ≤ b && b ≤ 0xEC) || b = 0xEE || b = 0xEF then
      match rest with
      | c :: d :: r => isCont c && isCont d && utf8Valid r
      | _ => false
    else if b = 0xED then
      match rest with
      | c :: d :: r => (0x80 ≤ c && c ≤ 0x9F) && isCont d && utf8Valid r
      | _ => false
    else if b = 0xF0 then
      match rest with
      | c :: d :: e :: r => (0x90 ≤ c && c ≤ 0xBF) && isCont d && isCont e && utf8Valid r
      | _ => false
    else if 0xF1 ≤ b && b ≤ 0xF3 then
      match rest with
      | c :: d :: e :: r => isCont c && isCont d && isCont e && utf8Valid r
      | _ => false
    else if b = 0xF4 then
      match rest with
      | c :: d :: e :: r => (0x80 ≤ c && c ≤ 0x8F) && isCont d && isCont e && utf8Valid r
      | _ => false
    else false

/-! ## Mount records (`src/mounts/info.rs`) -/

/-- Embeds `MountInfo`: a parsed mount entry.  `PathBuf`/`String` fields are raw
byte lists; `options` is the comma-split list; `dump`/`pass` are `i32`. -/
structure MountInfo where
  source : List Nat
  dest : List Nat
  fstype : List Nat
  options : List (List Nat)
  dump : Int
  pass : Int
deriving DecidableEq, Repr

/-- The distinct `io::Error` values produced by `MountInfo::from_str` and
`MountInfo::parse_value`.  Each constructor corresponds to one
`Error::new(kind, message)` site (the messages differ pairwise, so the
errors are distinguishable).  `aliasError` stands for any error returned
by `fetch_from_disk_by_path` (the external `partition_identity` lookup). -/
inductive MErr where
  | missingSource      -- InvalidData "missing source"
  | missingDest        -- InvalidData "missing dest"
  | missingType        -- InvalidData "missing type"
  | missingOptions     -- InvalidData "missing options"
  | dumpNotNumber      -- InvalidData "dump value is not a number"
  | passNotNumber      -- InvalidData "pass value is not a number"
  | truncatedEscape    -- Other "truncated octal code"
  | invalidEscapeDigit -- Other (ParseIntError)
  | nonUtf8            -- InvalidData "non-utf8 paths are unsupported"
  | aliasError         -- errors from fetch_from_disk_by_path
deriving DecidableEq, Repr

def vErrToM : VErr → MErr
  | .truncatedEscape => .truncatedEscape
  | .invalidEscapeDigit => .invalidEscapeDigit

/-- The bytes of `"/dev/disk/by-"`, the stable-alias prefix tested by
`path.starts_with("/dev/disk/by-")`. -/
def devDiskBy : List Nat :=
  [47, 100, 101, 118, 47, 100, 105, 115, 107, 47, 98, 121, 45]

/-- Embeds `input.len() >= path.len() && &input[..path.len()] == path`: the byte
prefix test used both by `str::starts_with` on ASCII prefixes and by
`MountList::starts_with`. -/
def startsWithCheck (input path : List Nat) : Bool :=
  decide (path.length ≤ input.length) && (input.take path.length == path)

/-- The `dump`/`pass` tail of `MountInfo::from_str`:
`parts.next().map_or(Ok(0), |v| v.parse::<i32>().map_err(...))?` for
`dump`, then the same for `pass`.  An absent field defaults to `0`; a
present, unparseable field is an error. -/
def dumpPass : List (List Nat) → Except MErr (Int × Int)
  | [] => .ok (0, 0)
  | v :: rest =>
    match parseI32 v with
    | none => .error .dumpNotNumber
    | some dump =>
      match rest with
      | [] => .ok (dump, 0)
      | w :: _ =>
        match parseI32 w with
        | none => .error .passNotNumber
        | some pass => .ok (dump, pass)

/-- Embeds `MountInfo::from_str`, parameterised by the external device
alias resolver (`fetch_from_disk_by_path`, which delegates to the
`partition_identity` crate and is not part of this repository).  Field
and decode order follow the source exactly: the four mandatory fields are
taken off the whitespace split (each absence its own error), then `dump`
and `pass` are parsed, then `source` is decoded, UTF-8-checked and
possibly alias-resolved, then `dest` is decoded and UTF-8-checked. -/
def mountFromStr (resolve : List Nat → Except MErr (List Nat))
    (line : List Nat) : Except MErr MountInfo :=
  match splitWS line with
  | [] => .error .missingSource
  | [_] => .error .missingDest
  | [_, _] => .error .missingType
  | [_, _, _] => .error .missingOptions
  | sourceF :: destF :: fstypeF :: optionsF :: rest =>
    match dumpPass rest with
    | .error e => .error e
    | .ok (dump, pass) =>
      match parse_value sourceF with
      | .error e => .error (vErrToM e)
      | .ok path =>
        if utf8Valid path then
          match (if startsWithCheck path devDiskBy
                 then resolve path else .ok path) with
          | .error e => .error e
          | .ok source =>
            match parse_value destF with
            | .error e => .error (vErrToM e)
            | .ok pathd =>
              if utf8Valid pathd then
                .ok { source := source, dest := pathd, fstype := fstypeF,
                      options := optionsF.splitOn 44, dump := dump,
                      pass := pass }
              else .error .nonUtf8
        else .error .nonUtf8

/-- A resolver that always fails: parsing with it succeeds exactly on
lines whose decoded source does not trigger alias resolution, and on
those lines it agrees with parsing under any resolver. -/
def noAlias : List Nat → Except MErr (List Nat) := fun _ => throw MErr.aliasError

/-- The bytes of `"defaults"`. -/
def defaultsBytes : List Nat := [100, 101, 102, 97, 117, 108, 116, 115]

/-- Embeds `Display for MountInfo`:
`"{} {} {} {} {} {}"` with the six fields, the options joined with commas
(or the literal `defaults` when the list is empty).  `Path::display` is
the identity on the underlying bytes for UTF-8-valid paths (the only ones
the parser produces); this embedding emits the bytes verbatim. -/
def displayMount (m : MountInfo) : List Nat :=
  m.source ++ 32 :: m.dest ++ 32 :: m.fstype ++ 32 ::
    (if m.options = [] then defaultsBytes else List.intercalate [44] m.options) ++
    32 :: intToDec m.dump ++ 32 :: intToDec m.pass

/-! ## Mount collection queries (`src/mounts/list.rs`)

`MountList` is `pub struct MountList(pub Vec<MountInfo>)`; it is modelled
as the underlying `List MountInfo`. -/

/-- Embeds `MountList::get_mount_by_dest`: first entry whose `dest` equals the
queried path. -/
def get_mount_by_dest (mounts : List MountInfo) (path : List Nat) :
    Option MountInfo :=
  mounts.find? (fun m => m.dest == path)

/-- Embeds `MountList::get_mount_by_source`: first entry whose `source` equals
the queried path. -/
def get_mount_by_source (mounts : List MountInfo) (path : List Nat) :
    Option MountInfo :=
  mounts.find? (fun m => m.source == path)

/-- Embeds `MountList::source_mounted_at`:
`self.get_mount_by_source(source).map_or(false, |m| m.dest == path)`. -/
def source_mounted_at (mounts : List MountInfo) (source path : List Nat) :
    Bool :=
  match get_mount_by_source mounts source with
  | some m => m.dest == path
  | none => false

/-- Embeds `MountList::starts_with`: filter the entries whose `func` projection
passes the byte-prefix test against `path`. -/
def starts_with (mounts : List MountInfo) (path : List Nat)
    (func : MountInfo → List Nat) : List MountInfo :=
  mounts.filter (fun m => startsWithCheck (func m) path)

/-- Embeds `MountList::source_starts_with`. -/
def source_starts_with (mounts : List MountInfo) (path : List Nat) :
    List MountInfo :=
  starts_with mounts path (fun m => m.source)

/-- Embeds `MountList::destination_starts_with`. -/
def destination_starts_with (mounts : List MountInfo) (path : List Nat) :
    List MountInfo :=
  starts_with mounts path (fun m => m.dest)

/-! ## Mount row iterator (`src/mounts/iter.rs`)

The `BufRead` source is modelled as the list of lines `read_line` would
return (each including its trailing newline, except possibly the last);
the iterator state is the list of lines not yet consumed.  End of input
(`read == 0`) yields `none`. -/

/-- Embeds `Iterator::next` for `MountIter`: loop reading lines; skip a line
that, after `trim_start`, is empty or starts with `#`; otherwise parse
the trimmed line.  Returns the produced item and the remaining lines, or
`none` at end of input. -/
def mountIterNext (resolve : List Nat → Except MErr (List Nat)) :
    List (List Nat) → Option (Except MErr MountInfo × List (List Nat))
  | [] => none
  | l :: rest =>
    let t := trimStart l
    if t.head? = some 35 ∨ t = [] then mountIterNext resolve rest
    else some (mountFromStr resolve t, rest)

/-! ## Swap records (`src/swaps.rs`) -/

/-- Embeds `SwapInfo`: a parsed swap entry.  `source` is a `PathBuf` and `kind`
an `OsString`, both raw byte lists; `size`/`used` are `usize`,
`priority` is `isize`. -/
structure SwapInfo where
  source : List Nat
  kind : List Nat
  size : Nat
  used : Nat
  priority : Int
deriving DecidableEq, Repr

/-- The distinct `io::Error` values produced by `SwapInfo::from_str` and
`SwapInfo::parse_value`.  The five missing-field errors carry distinct
messages (`"Missing source"`, …); by contrast *all three* numeric-parse
failures produce the same error value
`InvalidData "/proc/swaps contains invalid data"` (`invalidData`), which
does not name the failing field. -/
inductive SErr where
  | missingSource      -- Other "Missing source"
  | missingKind        -- Other "Missing kind"
  | missingSize        -- Other "Missing size"
  | missingUsed        -- Other "Missing used"
  | missingPriority    -- Other "Missing priority"
  | truncatedEscape    -- Other "truncated octal code"
  | invalidEscapeDigit -- Other (ParseIntError)
  | nonUtf8            -- InvalidData "/proc/swaps contains non-UTF8 entry"
  | invalidData        -- InvalidData "/proc/swaps contains invalid data"
deriving DecidableEq, Repr

def vErrToS : VErr → SErr
  | .truncatedEscape => .truncatedEscape
  | .invalidEscapeDigit => .invalidEscapeDigit

/-- The local `parse::<F>` helper of `SwapInfo::from_str`: UTF-8 check of
the decoded `OsString`
(`Error::new(InvalidData, "/proc/swaps contains non-UTF8 entry")` on
failure), then the numeric parse, any failure mapped to the one generic
`Error::new(InvalidData, "/proc/swaps contains invalid data")`. -/
def parseNumField (parse : List Nat → Option α) (v : List Nat) :
    Except SErr α :=
  if utf8Valid v then
    match parse v with
    | some n => .ok n
    | none => .error .invalidData
  else .error .nonUtf8

/-- Embeds `SwapInfo::from_str`: five mandatory whitespace-split fields
taken sequentially by the `next_value!` macro
(`parts.next().ok_or(Error::new(Other, $err)).and_then(parse_value)`),
each octal-decoded as it is taken; `size`/`used` additionally parsed as
`usize` and `priority` as `isize` through the `parse` helper.  The
evaluation order of the struct literal in the source is preserved: each
field is taken and decoded (and numerically parsed) before the next
field's presence is examined. -/
def swapFromStr (line : List Nat) : Except SErr SwapInfo :=
  match splitWS line with
  | [] => .error .missingSource
  | sourceF :: ps =>
    match parse_value sourceF with
    | .error e => .error (vErrToS e)
    | .ok sourceV =>
      match ps with
      | [] => .error .missingKind
      | kindF :: ps =>
        match parse_value kindF with
        | .error e => .error (vErrToS e)
        | .ok kindV =>
          match ps with
          | [] => .error .missingSize
          | sizeF :: ps =>
            match (parse_value sizeF).mapError vErrToS >>= parseNumField parseUsize with
            | .error e => .error e
            | .ok size =>
              match ps with
              | [] => .error .missingUsed
              | usedF :: ps =>
                match (parse_value usedF).mapError vErrToS >>= parseNumField parseUsize with
                | .error e => .error e
                | .ok used =>
                  match ps with
                  | [] => .error .missingPriority
                  | prioF :: _ =>
                    match (parse_value prioF).mapError vErrToS >>= parseNumField parseIsize with
                    | .error e => .error e
                    | .ok priority =>
                      .ok { source := sourceV, kind := kindV, size := size,
                            used := used, priority := priority }

/-- Embeds `SwapIter::new_from_reader`: one `read_line` whose result is
discarded (the header, whatever its content), leaving the remaining
lines as the iterator state.  On empty input `read_line` reads zero
bytes and the state is the empty list. -/
def swapIterLines (lines : List (List Nat)) : List (List Nat) :=
  lines.drop 1

/-- Embeds `Iterator::next` for `SwapIter`: end of input yields `none`; every
remaining line — blank or not — is parsed. -/
def swapIterNext :
    List (List Nat) → Option (Except SErr SwapInfo × List (List Nat))
  | [] => none
  | l :: rest => some (swapFromStr l, rest)

/-- Embeds `collect::<io::Result<Vec<SwapInfo>>>()`: drain the iterator,
short-circuiting on the first error. -/
def drainSwap : List (List Nat) → Except SErr (List SwapInfo)
  | [] => .ok []
  | l :: rest => do pure ((← swapFromStr l) :: (← drainSwap rest))

/-- Embeds `SwapList::new_from_reader`: construct the iterator (dropping the
header line) and drain it. -/
def swapListFromLines (lines : List (List Nat)) :
    Except SErr (List SwapInfo) :=
  drainSwap (swapIterLines lines)

/-! ## Editable mount tab (`src/mounts/tab.rs`) -/

/-- Embeds `AbstractMountElement`: one line of the abstract mount tab. -/
inductive AbstractMountElement where
  | comment (text : List Nat)
  | empty
  | mount (info : MountInfo)
deriving DecidableEq, Repr

/-- Embeds `Display for AbstractMountElement`: comment text verbatim, nothing
for an empty line, `Display for MountInfo` for a mount. -/
def elemDisplay : AbstractMountElement → List Nat
  | .comment t => t
  | .empty => []
  | .mount m => displayMount m

/-- Embeds `Display for MountTab`: `writeln!` each element (its display followed
by a newline), in order. -/
def tabDisplay (tab : List AbstractMountElement) : List Nat :=
  tab.foldr (fun e acc => elemDisplay e ++ 10 :: acc) []

/-- Strip one trailing carriage return (13); used by `str::lines` on
lines terminated by `\n`. -/
def stripCR (l : List Nat) : List Nat :=
  if l.getLast? = some 13 then l.dropLast else l

/-- Worker for `str::lines`: split at each newline (10), stripping a
carriage return before a newline; a final fragment not terminated by a
newline is yielded as-is (no trailing empty line). -/
def linesGo : List Nat → List Nat → List (List Nat)
  | [], acc => if acc = [] then [] else [acc.reverse]
  | 10 :: rest, acc => stripCR acc.reverse :: linesGo rest []
  | b :: rest, acc => linesGo rest (b :: acc)

/-- Embeds `str::lines` at the byte level. -/
def linesOf (l : List Nat) : List (List Nat) := linesGo l []

/-- The per-line body of `MountTab::from_str`: left-trim; an empty result
is an `Empty` element, a `#`-initial result is a `Comment` holding the
*trimmed* line, anything else is parsed as a mount record. -/
def tabLine (resolve : List Nat → Except MErr (List Nat))
    (line : List Nat) : Except MErr AbstractMountElement :=
  let t := trimStart line
  if t = [] then .ok .empty
  else if t.head? = some 35 then .ok (.comment t)
  else (mountFromStr resolve t).map .mount

/-- Embeds `MountTab::from_str`: classify each line in order,
short-circuiting on the first mount-parse error. -/
def mountTabFromStr (resolve : List Nat → Except MErr (List Nat))
    (input : List Nat) : Except MErr (List AbstractMountElement) :=
  (linesOf input).mapM (tabLine resolve)

/-- The canonical re-emission of one source line by the tab round trip:
whatever `tabLine` classifies the line as, displayed.  Comment and blank
lines that carry no leading whitespace come back verbatim; mount lines
come back in canonical record form. -/
def emitLine (resolve : List Nat → Except MErr (List Nat))
    (l : List Nat) : List Nat :=
  match tabLine resolve l with
  | .ok e => elemDisplay e
  | .error _ => []

/-- Newline-terminate and concatenate a list of lines. -/
def joinLines (lines : List (List Nat)) : List Nat :=
  lines.foldr (fun l acc => l ++ 10 :: acc) []

/-! ## Change-watching cache (`src/lib.rs`) -/

/-- Embeds one tick of `modify_if_changed`.  The imperative inputs are
made explicit: `hashRes` is the result of `get_file_hash` (`none` for
`Err`), `stored` the hash held in `modified`, `snapshot` the current
contents of the shared `RwLock`, and `parseRes` the result of
`create_new()` (`none` when re-parsing fails).  `swaps.write()` cannot
fail here (the lock is only poisoned by a panicking writer, and this is
the sole writer and does not panic), so the write-lock acquisition is
modelled as succeeding.  Returns the new `(modified, snapshot)` pair. -/
def modifyIfChanged {T : Type} (hashRes : Option Nat) (stored : Nat)
    (snapshot : T) (parseRes : Option T) : Nat × T :=
  match hashRes with
  | none => (stored, snapshot)
  | some newHash =>
    if newHash ≠ stored then
      (newHash, match parseRes with
        | some t => t
        | none => snapshot)
    else (stored, snapshot)

/-! ## Helper lemmas -/

theorem splitWSGo_append (f rest acc : List Nat)
    (hf : ∀ b ∈ f, isWS b = false) (hne : acc ≠ [] ∨ f ≠ []) :
    splitWSGo (f ++ 32 :: rest) acc =
      (acc.reverse ++ f) :: splitWSGo rest [] := by
  induction f generalizing acc with
  | nil =>
    rcases hne with hne | hne
    · simp [splitWSGo, isWS, hne]
    · exact absurd rfl hne
  | cons b f ih =>
    have hb : isWS b = false := hf b (by simp)
    rw [List.cons_append, splitWSGo, if_neg (by simp [hb])]
    rw [ih (b :: acc) (fun c hc => hf c (by simp [hc])) (Or.inl (by simp))]
    simp

theorem splitWSGo_last (f acc : List Nat)
    (hf : ∀ b ∈ f, isWS b = false) (hne : acc ≠ [] ∨ f ≠ []) :
    splitWSGo f acc = [acc.reverse ++ f] := by
  induction f generalizing acc with
  | nil =>
    rcases hne with hne | hne
    · simp [splitWSGo, hne]
    · exact absurd rfl hne
  | cons b f ih =>
    have hb : isWS b = false := hf b (by simp)
    rw [splitWSGo, if_neg (by simp [hb])]
    rw [ih (b :: acc) (fun c hc => hf c (by simp [hc])) (Or.inl (by simp))]
    simp

theorem splitWS_field_append (f rest : List Nat) (hne : f ≠ [])
    (h : ∀ b ∈ f, isWS b = false) :
    splitWS (f ++ 32 :: rest) = f :: splitWS rest := by
  rw [splitWS, splitWSGo_append f rest [] h (Or.inr hne)]
  simp [splitWS]

theorem splitWS_field_single (f : List Nat) (hne : f ≠ [])
    (h : ∀ b ∈ f, isWS b = false) :
    splitWS f = [f] := by
  rw [splitWS, splitWSGo_last f [] h (Or.inr hne)]
  simp

theorem splitWSGo_mem (l : List Nat) : ∀ acc : List Nat,
    (∀ b ∈ acc, isWS b = false) →
    ∀ f ∈ splitWSGo l acc, f ≠ [] ∧ ∀ b ∈ f, isWS b = false := by
  induction l with
  | nil =>
    intro acc hacc f hf
    rw [splitWSGo] at hf
    split at hf
    · simp at hf
    · rename_i hne
      rw [List.mem_singleton] at hf
      subst hf
      exact ⟨by simpa using hne, fun b hb => hacc b (by simpa using hb)⟩
  | cons b rest ih =>
    intro acc hacc f hf
    rw [splitWSGo] at hf
    by_cases hb : isWS b
    · rw [if_pos hb] at hf
      by_cases hacc0 : acc = []
      · rw [if_pos hacc0] at hf
        exact ih [] (by simp) f hf
      · rw [if_neg hacc0] at hf
        rcases List.mem_cons.mp hf with hf | hf
        · subst hf
          exact ⟨by simpa using hacc0, fun c hc => hacc c (by simpa using hc)⟩
        · exact ih [] (by simp) f hf
    · rw [if_neg hb] at hf
      refine ih (b :: acc) ?_ f hf
      intro c hc
      rcases List.mem_cons.mp hc with hc | hc
      · subst hc; simpa using hb
      · exact hacc c hc

/-- Every field produced by `splitWS` is nonempty and whitespace-free. -/
theorem splitWS_mem (l : List Nat) :
    ∀ f ∈ splitWS l, f ≠ [] ∧ ∀ b ∈ f, isWS b = false :=
  splitWSGo_mem l [] (by simp)

/-- Reduction of `parse_value` on a non-backslash head byte. -/
theorem parse_value_cons (b : Nat) (rest : List Nat) (hb : ¬ b = 92) :
    parse_value (b :: rest) = (parse_value rest).map (fun out => b :: out) := by
  rcases rest with _ | ⟨b1, _ | ⟨b2, _ | ⟨b3, rest'⟩⟩⟩
  · simp [parse_value, if_neg hb, Except.map, Bind.bind, Except.bind]
  · simp only [parse_value, if_neg hb]
    cases h : parse_value [b1] <;> simp [Except.map, Bind.bind, Except.bind]
  · simp only [parse_value, if_neg hb]
    cases h : parse_value [b1, b2] <;> simp [Except.map, Bind.bind, Except.bind]
  · simp only [parse_value, if_neg hb]
    cases h : parse_value (b1 :: b2 :: b3 :: rest') <;>
      simp [Except.map, Bind.bind, Except.bind]

/-- Reduction of `parse_value` on a well-formed octal escape. -/
theorem parse_value_escape_ok (b1 b2 b3 : Nat) (rest : List Nat)
    (h1 : 48 ≤ b1 ∧ b1 ≤ 55) (h2 : 48 ≤ b2 ∧ b2 ≤ 55)
    (h3 : 48 ≤ b3 ∧ b3 ≤ 55) :
    parse_value (92 :: b1 :: b2 :: b3 :: rest) =
      (parse_value rest).map
        (fun out => ((b1 - 48) * 64 + (b2 - 48) * 8 + (b3 - 48)) % 256 :: out) := by
  simp only [parse_value, if_pos rfl, octDigit, if_pos h1, if_pos h2, if_pos h3]
  cases h : parse_value rest <;> simp [Except.map, Bind.bind, Except.bind]

/-- Decoding is the identity on backslash-free byte strings. -/
theorem parse_value_no_escape (l : List Nat) (h : ∀ b ∈ l, b ≠ 92) :
    parse_value l = .ok l := by
  induction l with
  | nil => rfl
  | cons b rest ih =>
    rw [parse_value_cons b rest (h b (by simp)),
      ih (fun c hc => h c (by simp [hc]))]
    rfl

/-- Decoding a nonempty field yields a nonempty byte string. -/
theorem parse_value_ne_nil (l v : List Nat) (h : parse_value l = .ok v)
    (hne : l ≠ []) : v ≠ [] := by
  cases l with
  | nil => exact absurd rfl hne
  | cons b rest =>
    by_cases hb : b = 92
    · subst hb
      rcases rest with _ | ⟨b1, _ | ⟨b2, _ | ⟨b3, rest'⟩⟩⟩
      · simp [parse_value] at h
      · by_cases h1 : 48 ≤ b1 ∧ b1 ≤ 55 <;>
          simp [parse_value, octDigit, h1, Bind.bind, Except.bind] at h
      · by_cases h1 : 48 ≤ b1 ∧ b1 ≤ 55 <;>
          by_cases h2 : 48 ≤ b2 ∧ b2 ≤ 55 <;>
          simp [parse_value, octDigit, h1, h2, Bind.bind, Except.bind] at h
      · by_cases h1 : 48 ≤ b1 ∧ b1 ≤ 55
        · by_cases h2 : 48 ≤ b2 ∧ b2 ≤ 55
          · by_cases h3 : 48 ≤ b3 ∧ b3 ≤ 55
            · rw [parse_value_escape_ok b1 b2 b3 rest' h1 h2 h3] at h
              cases hp : parse_value rest' <;> rw [hp] at h <;>
                simp [Except.map] at h
              simp [← h]
            · revert h
              simp [parse_value, octDigit, h1, h2, h3, Bind.bind, Except.bind]
          · revert h
            simp [parse_value, octDigit, h1, h2, Bind.bind, Except.bind]
        · revert h
          simp [parse_value, octDigit, h1, Bind.bind, Except.bind]
    · rw [parse_value_cons b rest hb] at h
      cases hp : parse_value rest <;> rw [hp] at h <;> simp [Except.map] at h
      simp [← h]

theorem natToDecGo_fuel (f1 : Nat) : ∀ f2 n : Nat, n ≤ f1 → n ≤ f2 →
    natToDecGo f1 n = natToDecGo f2 n := by
  induction f1 with
  | zero =>
    intro f2 n h1 h2
    have : n = 0 := by omega
    subst this
    cases f2 <;> simp [natToDecGo]
  | succ f1 ih =>
    intro f2 n h1 h2
    by_cases hn : n < 10
    · cases f2 with
      | zero =>
        have : n = 0 := by omega
        subst this
        simp [natToDecGo]
      | succ f2 => simp [natToDecGo, hn]
    · cases f2 with
      | zero => omega
      | succ f2 =>
        rw [natToDecGo, natToDecGo, if_neg hn, if_neg hn,
          ih f2 (n / 10) (by omega) (by omega)]

/-- The recursive unfolding of `natToDec`: the fuel never runs out. -/
theorem natToDec_eq (n : Nat) : natToDec n =
    if n < 10 then [48 + n] else natToDec (n / 10) ++ [48 + n % 10] := by
  rw [natToDec]
  by_cases hn : n < 10
  · rw [if_pos hn]
    cases n with
    | zero => simp [natToDecGo]
    | succ m => rw [natToDecGo, if_pos hn]
  · rw [if_neg hn]
    cases hn' : n with
    | zero => omega
    | succ m =>
      rw [natToDecGo, if_neg (hn' ▸ hn), natToDec]
      rw [natToDecGo_fuel m ((m + 1) / 10) ((m + 1) / 10) (by omega) (by omega)]

theorem natToDec_digits (n : Nat) : ∀ b ∈ natToDec n, 48 ≤ b ∧ b ≤ 57 := by
  induction n using Nat.strong_induction_on with
  | _ n ih =>
    rw [natToDec_eq]
    split
    · intro b hb
      simp only [List.mem_singleton] at hb
      omega
    · intro b hb
      rcases List.mem_append.mp hb with hb | hb
      · exact ih (n / 10) (Nat.div_lt_self (by omega) (by omega)) b hb
      · simp only [List.mem_singleton] at hb
        have := Nat.mod_lt n (show 0 < 10 by omega)
        omega

theorem natToDec_ne_nil (n : Nat) : natToDec n ≠ [] := by
  rw [natToDec_eq]
  split <;> simp

theorem natToDec_foldl (n : Nat) : ∀ a : Nat,
    (natToDec n).foldl (fun acc b => acc * 10 + (b - 48)) a =
      a * 10 ^ (natToDec n).length + n := by
  induction n using Nat.strong_induction_on with
  | _ n ih =>
    intro a
    rw [natToDec_eq]
    split
    · simp only [List.foldl_cons, List.foldl_nil, List.length_singleton]
      omega
    · rw [List.foldl_append, List.length_append,
        ih (n / 10) (Nat.div_lt_self (by omega) (by omega)) a]
      simp only [List.foldl_cons, List.foldl_nil, List.length_singleton]
      have h10 : (10 : Nat) ^ ((natToDec (n / 10)).length + 1) =
          10 ^ (natToDec (n / 10)).length * 10 := by ring
      rw [h10]
      have : n % 10 + 48 - 48 = n % 10 := by omega
      have hdm := Nat.div_add_mod n 10
      calc (a * 10 ^ (natToDec (n / 10)).length + n / 10) * 10 + (48 + n % 10 - 48)
          = a * (10 ^ (natToDec (n / 10)).length * 10) + (n / 10 * 10 + n % 10) := by ring_nf; omega
        _ = a * (10 ^ (natToDec (n / 10)).length * 10) + n := by omega

theorem decValue_natToDec (n : Nat) : decValue (natToDec n) = some n := by
  have hdig : (natToDec n).all isDigit := by
    rw [List.all_eq_true]
    intro b hb
    have := natToDec_digits n b hb
    simp [isDigit]
    omega
  rw [decValue, if_pos ⟨natToDec_ne_nil n, hdig⟩, natToDec_foldl n 0]
  simp

theorem intToDec_mem (n : Int) : ∀ b ∈ intToDec n, 45 ≤ b ∧ b ≤ 57 := by
  rw [intToDec]
  split
  · intro b hb
    rcases List.mem_cons.mp hb with hb | hb
    · omega
    · have := natToDec_digits n.natAbs b hb; omega
  · intro b hb
    have := natToDec_digits n.toNat b hb; omega

theorem intToDec_ne_nil (n : Int) : intToDec n ≠ [] := by
  rw [intToDec]
  split
  · simp
  · exact natToDec_ne_nil _

theorem natToDec_head_ne (n : Nat) (c : Nat) (hc : c < 48) :
    (natToDec n).head? ≠ some c := by
  cases hnd : natToDec n with
  | nil => simp
  | cons b bs =>
    have := natToDec_digits n b (by rw [hnd]; simp)
    simp only [List.head?_cons, ne_eq, Option.some.injEq]
    omega

theorem parseI32_intToDec (n : Int) (h1 : -2147483648 ≤ n)
    (h2 : n ≤ 2147483647) : parseI32 (intToDec n) = some n := by
  by_cases hn : n < 0
  · rw [intToDec, if_pos hn]
    rw [parseI32]
    simp only [List.head?_cons, List.tail_cons]
    rw [if_neg (by simp), if_pos (by simp), decValue_natToDec]
    rw [Option.some_bind', if_pos (by omega)]
    congr 1
    omega
  · rw [intToDec, if_neg hn, parseI32]
    rw [if_neg (natToDec_head_ne _ 43 (by omega)),
      if_neg (natToDec_head_ne _ 45 (by omega)), decValue_natToDec]
    rw [Option.some_bind', if_pos (by omega)]
    simp only [Int.ofNat_eq_coe, Option.some.injEq]
    omega

theorem parseI32_some_bounds (l : List Nat) (n : Int)
    (h : parseI32 l = some n) : -2147483648 ≤ n ∧ n ≤ 2147483647 := by
  rw [parseI32] at h
  split at h <;> [skip; split at h] <;>
    · rcases hd : decValue _ with _ | m <;> rw [hd] at h <;>
        simp only [Option.none_bind', Option.some_bind'] at h
      · cases h
      · split at h <;> cases h <;> (try simp only [Int.ofNat_eq_coe]) <;> omega

/-! ## Claim C1 — octal escape decoding -/

/-- C1, counterexample: the claim states that a valid escape `\NNN`
decodes to the byte whose value is `d1*64 + d2*8 + d3`.  For `\777`
(all digits octal, so a "valid" escape in the claim's sense) that value
is `511`, but the code casts `code as u8`, producing the byte `255`:
the decoded byte is not the claimed value. -/
theorem C1_counterexample :
    parse_value [92, 55, 55, 55] = .ok [255] ∧
    (7 * 64 + 7 * 8 + 7 : Nat) = 511 ∧
    parse_value [92, 55, 55, 55] ≠ .ok [511] := by
  decide

/-- C1 (amended): a backslash followed by three octal digits decodes to
the single byte `(d1*64 + d2*8 + d3) mod 256` (the `as u8` cast; equal to
`d1*64 + d2*8 + d3` whenever that value is below 256, in particular for
every escape the kernel emits), every non-backslash byte passes through
unchanged, and a backslash followed by fewer than three bytes or by a
non-octal-digit byte within its three bytes makes the parse fail with an
escape error. -/
theorem C1_value_parser_escape_decode :
    (∀ b1 b2 b3 : Nat, ∀ rest : List Nat,
      (48 ≤ b1 ∧ b1 ≤ 55) → (48 ≤ b2 ∧ b2 ≤ 55) → (48 ≤ b3 ∧ b3 ≤ 55) →
      parse_value (92 :: b1 :: b2 :: b3 :: rest) =
        (parse_value rest).map
          (fun out => ((b1 - 48) * 64 + (b2 - 48) * 8 + (b3 - 48)) % 256 :: out)) ∧
    (∀ b : Nat, ∀ rest : List Nat, b ≠ 92 →
      parse_value (b :: rest) = (parse_value rest).map (fun out => b :: out)) ∧
    (∀ rest : List Nat, rest.length < 3 →
      ∃ e, parse_value (92 :: rest) = .error e) ∧
    (∀ b1 b2 b3 : Nat, ∀ rest : List Nat,
      ¬(48 ≤ b1 ∧ b1 ≤ 55) ∨ ¬(48 ≤ b2 ∧ b2 ≤ 55) ∨ ¬(48 ≤ b3 ∧ b3 ≤ 55) →
      ∃ e, parse_value (92 :: b1 :: b2 :: b3 :: rest) = .error e) := by
  refine ⟨parse_value_escape_ok, parse_value_cons, ?_, ?_⟩
  · intro rest hlen
    rcases rest with _ | ⟨b1, _ | ⟨b2, _ | ⟨b3, rest'⟩⟩⟩
    · exact ⟨.truncatedEscape, by simp [parse_value]⟩
    · by_cases h1 : 48 ≤ b1 ∧ b1 ≤ 55
      · exact ⟨.truncatedEscape,
          by simp [parse_value, octDigit, h1, Bind.bind, Except.bind]⟩
      · exact ⟨.invalidEscapeDigit,
          by simp [parse_value, octDigit, h1, Bind.bind, Except.bind]⟩
    · by_cases h1 : 48 ≤ b1 ∧ b1 ≤ 55
      · by_cases h2 : 48 ≤ b2 ∧ b2 ≤ 55
        · exact ⟨.truncatedEscape,
            by simp [parse_value, octDigit, h1, h2, Bind.bind, Except.bind]⟩
        · exact ⟨.invalidEscapeDigit,
            by simp [parse_value, octDigit, h1, h2, Bind.bind, Except.bind]⟩
      · exact ⟨.invalidEscapeDigit,
          by simp [parse_value, octDigit, h1, Bind.bind, Except.bind]⟩
    · simp only [List.length_cons] at hlen
      omega
  · intro b1 b2 b3 rest hbad
    by_cases h1 : 48 ≤ b1 ∧ b1 ≤ 55
    · by_cases h2 : 48 ≤ b2 ∧ b2 ≤ 55
      · by_cases h3 : 48 ≤ b3 ∧ b3 ≤ 55
        · tauto
        · exact ⟨.invalidEscapeDigit,
            by simp [parse_value, octDigit, h1, h2, h3, Bind.bind, Except.bind]⟩
      · exact ⟨.invalidEscapeDigit,
          by simp [parse_value, octDigit, h1, h2, Bind.bind, Except.bind]⟩
    · exact ⟨.invalidEscapeDigit,
        by simp [parse_value, octDigit, h1, Bind.bind, Except.bind]⟩

/-- C1, witness: the amended theorem applied at `\040a` (decoding the
escape to a space and passing `a` through) and at `\9` (escape error). -/
theorem C1_value_parser_escape_decode_witness :
    parse_value (92 :: 48 :: 52 :: 48 :: [97]) =
      (parse_value [97]).map
        (fun out => ((48 - 48) * 64 + (52 - 48) * 8 + (48 - 48)) % 256 :: out) ∧
    (∃ e, parse_value (92 :: [57]) = .error e) :=
  ⟨C1_value_parser_escape_decode.1 48 52 48 [97]
      (by decide) (by decide) (by decide),
    C1_value_parser_escape_decode.2.2.1 [57] (by decide)⟩


/-! ## Inversion of successful mount parses -/

theorem dumpPass_ok (rest : List (List Nat)) (a b : Int)
    (h : dumpPass rest = .ok (a, b)) :
    (-2147483648 ≤ a ∧ a ≤ 2147483647) ∧ (-2147483648 ≤ b ∧ b ≤ 2147483647) ∧
      ((rest = [] ∧ a = 0 ∧ b = 0) ∨
        (∃ v rest', rest = v :: rest' ∧ parseI32 v = some a ∧
          ((rest' = [] ∧ b = 0) ∨
            (∃ w rest'', rest' = w :: rest'' ∧ parseI32 w = some b)))) := by
  rcases rest with _ | ⟨v, _ | ⟨w, rest''⟩⟩
  · rw [dumpPass] at h
    cases h
    exact ⟨by omega, by omega, Or.inl ⟨rfl, rfl, rfl⟩⟩
  · rw [dumpPass] at h
    cases hv : parseI32 v with
    | none => rw [hv] at h; cases h
    | some n =>
      rw [hv] at h
      dsimp only at h
      rw [Except.ok.injEq, Prod.mk.injEq] at h
      obtain ⟨ha, hb⟩ := h
      subst ha
      subst hb
      have := parseI32_some_bounds v n hv
      exact ⟨this, by omega, Or.inr ⟨v, [], rfl, hv, Or.inl ⟨rfl, rfl⟩⟩⟩
  · rw [dumpPass] at h
    cases hv : parseI32 v with
    | none => rw [hv] at h; cases h
    | some n =>
      rw [hv] at h
      dsimp only at h
      cases hw : parseI32 w with
      | none => rw [hw] at h; cases h
      | some m =>
        rw [hw] at h
        rw [Except.ok.injEq, Prod.mk.injEq] at h
        obtain ⟨ha, hb⟩ := h
        subst ha
        subst hb
        have h1 := parseI32_some_bounds v n hv
        have h2 := parseI32_some_bounds w m hw
        exact ⟨h1, h2, Or.inr ⟨v, w :: rest'', rfl, hv,
          Or.inr ⟨w, rest'', rfl, hw⟩⟩⟩
theorem mountFromStr_ok (resolve : List Nat → Except MErr (List Nat))
    (line : List Nat) (r : MountInfo)
    (h : mountFromStr resolve line = .ok r) :
    ∃ sF dF fF oF rest,
      splitWS line = sF :: dF :: fF :: oF :: rest ∧
      dumpPass rest = .ok (r.dump, r.pass) ∧
      r.fstype = fF ∧ r.options = oF.splitOn 44 ∧
      (∃ path, parse_value sF = .ok path ∧ utf8Valid path = true ∧
        ((startsWithCheck path devDiskBy = false ∧ r.source = path) ∨
          (startsWithCheck path devDiskBy = true ∧ resolve path = .ok r.source))) ∧
      parse_value dF = .ok r.dest ∧ utf8Valid r.dest = true := by
  rw [mountFromStr.eq_def] at h
  rcases hsplit : splitWS line with _ | ⟨sF, _ | ⟨dF, _ | ⟨fF, _ | ⟨oF, rest⟩⟩⟩⟩ <;>
    rw [hsplit] at h <;> try cases h
  dsimp only at h
  refine ⟨sF, dF, fF, oF, rest, rfl, ?_⟩
  rcases hdp : dumpPass rest with e | ⟨dump, pass⟩ <;> rw [hdp] at h
  · cases h
  dsimp only at h
  rcases hpv : parse_value sF with e | path <;> rw [hpv] at h
  · cases h
  dsimp only at h
  by_cases hu : utf8Valid path = true
  · rw [if_pos hu] at h
    by_cases hsw : startsWithCheck path devDiskBy = true
    · rw [if_pos hsw] at h
      rcases hres : resolve path with e | src <;> rw [hres] at h
      · cases h
      dsimp only at h
      rcases hpd : parse_value dF with e | pathd <;> rw [hpd] at h
      · cases h
      dsimp only at h
      by_cases hud : utf8Valid pathd = true
      · rw [if_pos hud] at h
        cases h
        exact ⟨rfl, rfl, rfl, ⟨path, rfl, hu, Or.inr ⟨hsw, hres⟩⟩, rfl, hud⟩
      · rw [if_neg hud] at h; cases h
    · rw [if_neg hsw] at h
      dsimp only at h
      rcases hpd : parse_value dF with e | pathd <;> rw [hpd] at h
      · cases h
      dsimp only at h
      by_cases hud : utf8Valid pathd = true
      · rw [if_pos hud] at h
        cases h
        exact ⟨rfl, rfl, rfl, ⟨path, rfl, hu,
          Or.inl ⟨by simpa using hsw, rfl⟩⟩, rfl, hud⟩
      · rw [if_neg hud] at h; cases h
  · rw [if_neg hu] at h; cases h

/-! ## Claim C2 — mount record field errors and defaults -/

/-- C2: mount-record parsing splits on whitespace runs; absent
source/dest/fstype/options each fail with their missing-field error;
absent dump/pass default to 0; present but unparseable dump/pass fail
with their invalid-number error. -/
theorem C2_mount_record_fields :
    (∀ resolve line, splitWS line = [] →
      mountFromStr resolve line = .error .missingSource) ∧
    (∀ resolve line s, splitWS line = [s] →
      mountFromStr resolve line = .error .missingDest) ∧
    (∀ resolve line s d, splitWS line = [s, d] →
      mountFromStr resolve line = .error .missingType) ∧
    (∀ resolve line s d f, splitWS line = [s, d, f] →
      mountFromStr resolve line = .error .missingOptions) ∧
    (∀ resolve line s d f o r, splitWS line = [s, d, f, o] →
      mountFromStr resolve line = .ok r → r.dump = 0 ∧ r.pass = 0) ∧
    (∀ resolve line s d f o v n r, splitWS line = [s, d, f, o, v] →
      parseI32 v = some n →
      mountFromStr resolve line = .ok r → r.dump = n ∧ r.pass = 0) ∧
    (∀ resolve line s d f o v rest, splitWS line = s :: d :: f :: o :: v :: rest →
      parseI32 v = none →
      mountFromStr resolve line = .error .dumpNotNumber) ∧
    (∀ resolve line s d f o v w rest n,
      splitWS line = s :: d :: f :: o :: v :: w :: rest →
      parseI32 v = some n → parseI32 w = none →
      mountFromStr resolve line = .error .passNotNumber) ∧
    (∀ resolve line s d f o v w rest n m r,
      splitWS line = s :: d :: f :: o :: v :: w :: rest →
      parseI32 v = some n → parseI32 w = some m →
      mountFromStr resolve line = .ok r → r.dump = n ∧ r.pass = m) := by
  refine ⟨?_, ?_, ?_, ?_, ?_, ?_, ?_, ?_, ?_⟩
  · intro resolve line hsplit
    rw [mountFromStr.eq_def, hsplit]
  · intro resolve line s hsplit
    rw [mountFromStr.eq_def, hsplit]
  · intro resolve line s d hsplit
    rw [mountFromStr.eq_def, hsplit]
  · intro resolve line s d f hsplit
    rw [mountFromStr.eq_def, hsplit]
  · intro resolve line s d f o r hsplit hok
    obtain ⟨sF, dF, fF, oF, rest, hs, hdp, -⟩ := mountFromStr_ok resolve line r hok
    rw [hsplit] at hs
    obtain ⟨rfl, rfl, rfl, rfl, hrest⟩ :
        s = sF ∧ d = dF ∧ f = fF ∧ o = oF ∧ [] = rest := by
      injection hs with h1 hs; injection hs with h2 hs
      injection hs with h3 hs; injection hs with h4 hs
      exact ⟨h1, h2, h3, h4, hs⟩
    rw [← hrest, dumpPass] at hdp
    injection hdp with hdp
    injection hdp with h1 h2
    exact ⟨h1.symm, h2.symm⟩
  · intro resolve line s d f o v n r hsplit hv hok
    obtain ⟨sF, dF, fF, oF, rest, hs, hdp, -⟩ := mountFromStr_ok resolve line r hok
    rw [hsplit] at hs
    obtain ⟨rfl, rfl, rfl, rfl, hrest⟩ :
        s = sF ∧ d = dF ∧ f = fF ∧ o = oF ∧ [v] = rest := by
      injection hs with h1 hs; injection hs with h2 hs
      injection hs with h3 hs; injection hs with h4 hs
      exact ⟨h1, h2, h3, h4, hs⟩
    rw [← hrest, dumpPass, hv] at hdp
    dsimp only at hdp
    injection hdp with hdp
    injection hdp with h1 h2
    exact ⟨h1.symm, h2.symm⟩
  · intro resolve line s d f o v rest hsplit hv
    rw [mountFromStr.eq_def, hsplit]
    dsimp only
    rw [dumpPass, hv]
  · intro resolve line s d f o v w rest n hsplit hv hw
    rw [mountFromStr.eq_def, hsplit]
    dsimp only
    rw [dumpPass, hv]
    dsimp only
    rw [hw]
  · intro resolve line s d f o v w rest n m r hsplit hv hw hok
    obtain ⟨sF, dF, fF, oF, rest', hs, hdp, -⟩ := mountFromStr_ok resolve line r hok
    rw [hsplit] at hs
    obtain ⟨rfl, rfl, rfl, rfl, hrest⟩ :
        s = sF ∧ d = dF ∧ f = fF ∧ o = oF ∧ v :: w :: rest = rest' := by
      injection hs with h1 hs; injection hs with h2 hs
      injection hs with h3 hs; injection hs with h4 hs
      exact ⟨h1, h2, h3, h4, hs⟩
    rw [← hrest, dumpPass, hv] at hdp
    dsimp only at hdp
    rw [hw] at hdp
    injection hdp with hdp
    injection hdp with h1 h2
    exact ⟨h1.symm, h2.symm⟩

/-- C2, witness: a two-field line fails with the missing-type error
(the theorem instance shown is missing-dest on a one-field line), and a
five-field line with non-numeric dump fails with the dump error. -/
theorem C2_mount_record_fields_witness :
    mountFromStr noAlias [97] = .error .missingDest ∧
    mountFromStr noAlias [97, 32, 98, 32, 99, 32, 100, 32, 120] =
      .error .dumpNotNumber :=
  ⟨C2_mount_record_fields.2.1 noAlias [97] [97] (by decide),
    C2_mount_record_fields.2.2.2.2.2.2.1 noAlias
      [97, 32, 98, 32, 99, 32, 100, 32, 120]
      [97] [98] [99] [100] [120] [] (by decide) (by decide)⟩

/-! ## Claim C4 — row iterators -/
/-- C4: the mount iterator skips comment/blank lines and ends cleanly;
the swap iterator drops exactly the header at construction and parses
every subsequent line. -/
theorem C4_row_iterators :
    (∀ resolve, mountIterNext resolve [] = none) ∧
    (∀ resolve l rest, (trimStart l).head? = some 35 ∨ trimStart l = [] →
      mountIterNext resolve (l :: rest) = mountIterNext resolve rest) ∧
    (∀ resolve l rest, ¬((trimStart l).head? = some 35 ∨ trimStart l = []) →
      mountIterNext resolve (l :: rest) =
        some (mountFromStr resolve (trimStart l), rest)) ∧
    (∀ header rest, swapIterLines (header :: rest) = rest) ∧
    swapIterNext [] = none ∧
    (∀ l rest, swapIterNext (l :: rest) = some (swapFromStr l, rest)) ∧
    (∀ header, swapListFromLines [header] = .ok []) := by
  refine ⟨fun _ => rfl, ?_, ?_, fun _ _ => rfl, rfl, fun _ _ => rfl, fun _ => rfl⟩
  · intro resolve l rest hcond
    rw [mountIterNext, if_pos hcond]
  · intro resolve l rest hcond
    rw [mountIterNext, if_neg hcond]

/-- C4, witness: a comment line is skipped (advancing to end of input),
a data line is parsed, and a swap table holding only its header yields
the empty collection. -/
theorem C4_row_iterators_witness :
    mountIterNext noAlias [[35, 120]] = mountIterNext noAlias [] ∧
    mountIterNext noAlias [[97]] =
      some (mountFromStr noAlias (trimStart [97]), []) ∧
    swapListFromLines [[104, 101, 97, 100]] = .ok [] :=
  ⟨C4_row_iterators.2.1 noAlias [35, 120] [] (by decide),
    C4_row_iterators.2.2.1 noAlias [97] [] (by decide),
    C4_row_iterators.2.2.2.2.2.2 [104, 101, 97, 100]⟩

/-! ## Claim C5 — swap record parsing and errors -/
/-- C5, counterexample: a non-numeric `size` field
(`"a b x 0 0"`) and a non-numeric `priority` field (`"a b 0 0 x"`) yield
the *same* error value — the generic
`InvalidData "/proc/swaps contains invalid data"` — so the numeric-parse
failure does not report which field failed, contrary to the claim. -/
theorem C5_counterexample :
    swapFromStr [97, 32, 98, 32, 120, 32, 48, 32, 48] = .error .invalidData ∧
    swapFromStr [97, 32, 98, 32, 48, 32, 48, 32, 120] = .error .invalidData ∧
    swapFromStr [97, 32, 98, 32, 120, 32, 48, 32, 48] =
      swapFromStr [97, 32, 98, 32, 48, 32, 48, 32, 120] := by
  decide

/-- C5 (amended): all five fields are mandatory with no defaults, each
absence reported by its own missing-field error; `size`/`used` are parsed
as unsigned and `priority` as signed integers; a present but non-numeric
numeric field fails with the generic invalid-data error — the same error
value for all three numeric fields, not naming the failing field, but
distinct from every missing-field error. -/
theorem C5_swap_record_errors :
    (∀ line, splitWS line = [] → swapFromStr line = .error .missingSource) ∧
    (∀ line s vs, splitWS line = [s] → parse_value s = .ok vs →
      swapFromStr line = .error .missingKind) ∧
    (∀ line s k vs vk, splitWS line = [s, k] →
      parse_value s = .ok vs → parse_value k = .ok vk →
      swapFromStr line = .error .missingSize) ∧
    (∀ line s k z vs vk vz n, splitWS line = [s, k, z] →
      parse_value s = .ok vs → parse_value k = .ok vk →
      parse_value z = .ok vz → utf8Valid vz = true → parseUsize vz = some n →
      swapFromStr line = .error .missingUsed) ∧
    (∀ line s k z u vs vk vz vu n m, splitWS line = [s, k, z, u] →
      parse_value s = .ok vs → parse_value k = .ok vk →
      parse_value z = .ok vz → utf8Valid vz = true → parseUsize vz = some n →
      parse_value u = .ok vu → utf8Valid vu = true → parseUsize vu = some m →
      swapFromStr line = .error .missingPriority) ∧
    (∀ line s k z rest vs vk vz, splitWS line = s :: k :: z :: rest →
      parse_value s = .ok vs → parse_value k = .ok vk →
      parse_value z = .ok vz → utf8Valid vz = true → parseUsize vz = none →
      swapFromStr line = .error .invalidData) ∧
    (∀ line s k z u rest vs vk vz vu n, splitWS line = s :: k :: z :: u :: rest →
      parse_value s = .ok vs → parse_value k = .ok vk →
      parse_value z = .ok vz → utf8Valid vz = true → parseUsize vz = some n →
      parse_value u = .ok vu → utf8Valid vu = true → parseUsize vu = none →
      swapFromStr line = .error .invalidData) ∧
    (∀ line s k z u p rest vs vk vz vu vp n m,
      splitWS line = s :: k :: z :: u :: p :: rest →
      parse_value s = .ok vs → parse_value k = .ok vk →
      parse_value z = .ok vz → utf8Valid vz = true → parseUsize vz = some n →
      parse_value u = .ok vu → utf8Valid vu = true → parseUsize vu = some m →
      parse_value p = .ok vp → utf8Valid vp = true → parseIsize vp = none →
      swapFromStr line = .error .invalidData) ∧
    (∀ line s k z u p rest vs vk vz vu vp n m q,
      splitWS line = s :: k :: z :: u :: p :: rest →
      parse_value s = .ok vs → parse_value k = .ok vk →
      parse_value z = .ok vz → utf8Valid vz = true → parseUsize vz = some n →
      parse_value u = .ok vu → utf8Valid vu = true → parseUsize vu = some m →
      parse_value p = .ok vp → utf8Valid vp = true → parseIsize vp = some q →
      swapFromStr line =
        .ok { source := vs, kind := vk, size := n, used := m, priority := q }) ∧
    (SErr.invalidData ≠ SErr.missingSource ∧
      SErr.invalidData ≠ SErr.missingKind ∧
      SErr.invalidData ≠ SErr.missingSize ∧
      SErr.invalidData ≠ SErr.missingUsed ∧
      SErr.invalidData ≠ SErr.missingPriority) := by
  refine ⟨?_, ?_, ?_, ?_, ?_, ?_, ?_, ?_, ?_, by decide⟩
  · intro line hsplit
    rw [swapFromStr.eq_def, hsplit]
  · intro line s vs hsplit hs
    rw [swapFromStr.eq_def, hsplit]
    try dsimp only
    rw [hs]
  · intro line s k vs vk hsplit hs hk
    rw [swapFromStr.eq_def, hsplit]
    try dsimp only
    rw [hs]
    try dsimp only
    rw [hk]
  · intro line s k z vs vk vz n hsplit hs hk hz hu hn
    rw [swapFromStr.eq_def, hsplit]
    try dsimp only
    rw [hs]
    try dsimp only
    rw [hk]
    try dsimp only
    rw [hz]
    simp only [Except.mapError, Bind.bind, Except.bind, parseNumField,
      hu, if_pos, hn]
  · intro line s k z u vs vk vz vu n m hsplit hs hk hz huz hn hu huu hm
    rw [swapFromStr.eq_def, hsplit]
    try dsimp only
    rw [hs]
    try dsimp only
    rw [hk]
    try dsimp only
    rw [hz]
    simp only [Except.mapError, Bind.bind, Except.bind, parseNumField,
      huz, if_pos, hn]
    try dsimp only
    rw [hu]
    simp only [Except.mapError, Bind.bind, Except.bind, parseNumField,
      huu, if_pos, hm]
  · intro line s k z rest vs vk vz hsplit hs hk hz hu hn
    rw [swapFromStr.eq_def, hsplit]
    try dsimp only
    rw [hs]
    try dsimp only
    rw [hk]
    try dsimp only
    rw [hz]
    simp only [Except.mapError, Bind.bind, Except.bind, parseNumField,
      hu, if_pos, hn]
  · intro line s k z u rest vs vk vz vu n hsplit hs hk hz huz hn hu huu hm
    rw [swapFromStr.eq_def, hsplit]
    try dsimp only
    rw [hs]
    try dsimp only
    rw [hk]
    try dsimp only
    rw [hz]
    simp only [Except.mapError, Bind.bind, Except.bind, parseNumField,
      huz, if_pos, hn]
    try dsimp only
    rw [hu]
    simp only [Except.mapError, Bind.bind, Except.bind, parseNumField,
      huu, if_pos, hm]
  · intro line s k z u p rest vs vk vz vu vp n m hsplit hs hk hz huz hn hu huu hm hp hup hq
    rw [swapFromStr.eq_def, hsplit]
    try dsimp only
    rw [hs]
    try dsimp only
    rw [hk]
    try dsimp only
    rw [hz]
    simp only [Except.mapError, Bind.bind, Except.bind, parseNumField,
      huz, if_pos, hn]
    try dsimp only
    rw [hu]
    simp only [Except.mapError, Bind.bind, Except.bind, parseNumField,
      huu, if_pos, hm]
    try dsimp only
    rw [hp]
    simp only [Except.mapError, Bind.bind, Except.bind, parseNumField,
      hup, if_pos, hq]
  · intro line s k z u p rest vs vk vz vu vp n m q hsplit hs hk hz huz hn hu huu hm hp hup hq
    rw [swapFromStr.eq_def, hsplit]
    try dsimp only
    rw [hs]
    try dsimp only
    rw [hk]
    try dsimp only
    rw [hz]
    simp only [Except.mapError, Bind.bind, Except.bind, parseNumField,
      huz, if_pos, hn]
    try dsimp only
    rw [hu]
    simp only [Except.mapError, Bind.bind, Except.bind, parseNumField,
      huu, if_pos, hm]
    try dsimp only
    rw [hp]
    simp only [Except.mapError, Bind.bind, Except.bind, parseNumField,
      hup, if_pos, hq]

/-- C5, witness: the amended theorem's success case applied to
`"a b 1 0 -2"`. -/
theorem C5_swap_record_errors_witness :
    swapFromStr [97, 32, 98, 32, 49, 32, 48, 32, 45, 50] =
      .ok { source := [97], kind := [98], size := 1, used := 0,
            priority := -2 } :=
  C5_swap_record_errors.2.2.2.2.2.2.2.2.1
    [97, 32, 98, 32, 49, 32, 48, 32, 45, 50]
    [97] [98] [49] [48] [45, 50] [] [97] [98] [49] [48] [45, 50] 1 0 (-2)
    (by decide) (by decide) (by decide) (by decide) (by decide) (by decide)
    (by decide) (by decide) (by decide) (by decide) (by decide) (by decide)

/-! ## Claim C6 — collection lookups -/
/-- C6: destination/source lookup return the first matching record in
collection order; `source_mounted_at` holds iff the source lookup returns
a record whose `dest` is the queried path; with pairwise-distinct
destinations the destination lookup returns the unique match and
`source_mounted_at` agrees with the source lookup. -/
theorem C6_mount_list_lookups :
    (∀ (pre post : List MountInfo) (m : MountInfo) (p : List Nat),
      (∀ x ∈ pre, x.dest ≠ p) → m.dest = p →
      get_mount_by_dest (pre ++ m :: post) p = some m) ∧
    (∀ (pre post : List MountInfo) (m : MountInfo) (p : List Nat),
      (∀ x ∈ pre, x.source ≠ p) → m.source = p →
      get_mount_by_source (pre ++ m :: post) p = some m) ∧
    (∀ (ms : List MountInfo) (s d : List Nat),
      source_mounted_at ms s d = true ↔
        ∃ m, get_mount_by_source ms s = some m ∧ m.dest = d) ∧
    (∀ (ms : List MountInfo) (p : List Nat) (m : MountInfo),
      ms ≠ [] → ms.Pairwise (fun a b => a.dest ≠ b.dest) →
      m ∈ ms → m.dest = p →
      get_mount_by_dest ms p = some m ∧
        (source_mounted_at ms m.source p = true ↔
          ∃ m', get_mount_by_source ms m.source = some m' ∧ m'.dest = p)) := by
  have hdest : ∀ (pre post : List MountInfo) (m : MountInfo) (p : List Nat),
      (∀ x ∈ pre, x.dest ≠ p) → m.dest = p →
      get_mount_by_dest (pre ++ m :: post) p = some m := by
    intro pre post m p hpre hm
    induction pre with
    | nil =>
      rw [List.nil_append, get_mount_by_dest,
        List.find?_cons_of_pos _ (by simp [hm])]
    | cons x pre ih =>
      rw [List.cons_append, get_mount_by_dest,
        List.find?_cons_of_neg _ (by simp [hpre x (by simp)])]
      exact ih (fun y hy => hpre y (by simp [hy]))
  have hsrc : ∀ (pre post : List MountInfo) (m : MountInfo) (p : List Nat),
      (∀ x ∈ pre, x.source ≠ p) → m.source = p →
      get_mount_by_source (pre ++ m :: post) p = some m := by
    intro pre post m p hpre hm
    induction pre with
    | nil =>
      rw [List.nil_append, get_mount_by_source,
        List.find?_cons_of_pos _ (by simp [hm])]
    | cons x pre ih =>
      rw [List.cons_append, get_mount_by_source,
        List.find?_cons_of_neg _ (by simp [hpre x (by simp)])]
      exact ih (fun y hy => hpre y (by simp [hy]))
  have hiff : ∀ (ms : List MountInfo) (s d : List Nat),
      source_mounted_at ms s d = true ↔
        ∃ m, get_mount_by_source ms s = some m ∧ m.dest = d := by
    intro ms s d
    rw [source_mounted_at]
    cases hf : get_mount_by_source ms s with
    | none => simp
    | some m => simp [beq_iff_eq]
  refine ⟨hdest, hsrc, hiff, ?_⟩
  intro ms p m hne hpair hmem hmdest
  constructor
  · obtain ⟨pre, post, rfl⟩ := List.append_of_mem hmem
    refine hdest pre post m p ?_ hmdest
    intro x hx
    have := (List.pairwise_append.mp hpair).2.2 x hx m (by simp)
    rw [hmdest] at this
    exact this
  · exact hiff ms m.source p

/-- C6, witness: lookup and `source_mounted_at` on the one-record
collection `a -> b`. -/
theorem C6_mount_list_lookups_witness :
    get_mount_by_dest
        [{ source := [97], dest := [98], fstype := [99],
           options := [[100]], dump := 0, pass := 0 }] [98] =
      some { source := [97], dest := [98], fstype := [99],
             options := [[100]], dump := 0, pass := 0 } ∧
    (source_mounted_at
        [{ source := [97], dest := [98], fstype := [99],
           options := [[100]], dump := 0, pass := 0 }] [97] [98] = true ↔
      ∃ m', get_mount_by_source
          [{ source := [97], dest := [98], fstype := [99],
             options := [[100]], dump := 0, pass := 0 }] [97] = some m' ∧
        m'.dest = [98]) :=
  ⟨C6_mount_list_lookups.1 [] []
      { source := [97], dest := [98], fstype := [99],
        options := [[100]], dump := 0, pass := 0 } [98]
      (by simp) rfl,
    C6_mount_list_lookups.2.2.1
      [{ source := [97], dest := [98], fstype := [99],
         options := [[100]], dump := 0, pass := 0 }] [97] [98]⟩

/-! ## Claim C7 — byte-prefix search -/
/-- The filter predicate of `MountList::starts_with` is the byte-prefix
relation. -/
theorem startsWithCheck_iff (input path : List Nat) :
    startsWithCheck input path = true ↔ path <+: input := by
  rw [startsWithCheck]
  simp only [Bool.and_eq_true, decide_eq_true_eq, beq_iff_eq]
  constructor
  · rintro ⟨hlen, htake⟩
    have hsplit := List.take_append_drop path.length input
    rw [htake] at hsplit
    exact ⟨input.drop path.length, hsplit⟩
  · rintro ⟨t, rfl⟩
    exact ⟨by simp, List.take_left path t⟩

/-- C7: prefix search over sources (resp. destinations) yields exactly
the records whose source (resp. dest) has the queried bytes as a prefix,
in collection order (a sublist of the collection), and the comparison is
byte-wise: `/foo` is a prefix of `/foobar`. -/
theorem C7_prefix_search :
    (∀ (ms : List MountInfo) (p : List Nat) (m : MountInfo),
      m ∈ source_starts_with ms p ↔ m ∈ ms ∧ p <+: m.source) ∧
    (∀ (ms : List MountInfo) (p : List Nat) (m : MountInfo),
      m ∈ destination_starts_with ms p ↔ m ∈ ms ∧ p <+: m.dest) ∧
    (∀ (ms : List MountInfo) (p : List Nat),
      (source_starts_with ms p).Sublist ms) ∧
    (∀ (ms : List MountInfo) (p : List Nat),
      (destination_starts_with ms p).Sublist ms) ∧
    startsWithCheck [47, 102, 111, 111, 98, 97, 114] [47, 102, 111, 111] =
      true := by
  refine ⟨?_, ?_, ?_, ?_, by decide⟩
  · intro ms p m
    rw [source_starts_with, starts_with, List.mem_filter,
      startsWithCheck_iff]
  · intro ms p m
    rw [destination_starts_with, starts_with, List.mem_filter,
      startsWithCheck_iff]
  · intro ms p
    exact List.filter_sublist ms
  · intro ms p
    exact List.filter_sublist ms

/-- C7, witness: `/foobar` is returned by a source prefix search for
`/foo`. -/
theorem C7_prefix_search_witness :
    { source := [47, 102, 111, 111, 98, 97, 114], dest := [98],
      fstype := [99], options := [[100]], dump := 0,
      pass := 0 : MountInfo } ∈
      source_starts_with
        [{ source := [47, 102, 111, 111, 98, 97, 114], dest := [98],
           fstype := [99], options := [[100]], dump := 0, pass := 0 }]
        [47, 102, 111, 111] :=
  (C7_prefix_search.1 _ [47, 102, 111, 111] _).mpr
    ⟨by simp, ⟨[98, 97, 114], rfl⟩⟩

/-! ## Claim C8 — change-watching cache tick -/
/-- C8: one tick of the change-watching cache.  A failed hash leaves the
stored hash and snapshot unchanged; a changed hash with a failed re-parse
keeps the previous snapshot; an unchanged hash changes nothing; and the
snapshot value changes only when the hash was computed, differed, and
re-parsing succeeded. -/
theorem C8_cache_update_step :
    (∀ (T : Type) (stored : Nat) (snap : T) (parseRes : Option T),
      modifyIfChanged none stored snap parseRes = (stored, snap)) ∧
    (∀ (T : Type) (stored : Nat) (snap : T) (h : Nat), h ≠ stored →
      modifyIfChanged (some h) stored snap (none : Option T) = (h, snap)) ∧
    (∀ (T : Type) (stored : Nat) (snap : T) (h : Nat) (t : T), h ≠ stored →
      modifyIfChanged (some h) stored snap (some t) = (h, t)) ∧
    (∀ (T : Type) (stored : Nat) (snap : T) (parseRes : Option T),
      modifyIfChanged (some stored) stored snap parseRes = (stored, snap)) ∧
    (∀ (T : Type) (stored : Nat) (snap : T) (parseRes : Option T)
        (hashRes : Option Nat),
      (modifyIfChanged hashRes stored snap parseRes).2 ≠ snap →
      ∃ h, hashRes = some h ∧ h ≠ stored ∧
        ∃ t, parseRes = some t ∧
          (modifyIfChanged hashRes stored snap parseRes).2 = t) := by
  refine ⟨fun _ _ _ _ => rfl, ?_, ?_, ?_, ?_⟩
  · intro T stored snap h hne
    simp [modifyIfChanged, hne]
  · intro T stored snap h t hne
    simp [modifyIfChanged, hne]
  · intro T stored snap parseRes
    simp [modifyIfChanged]
  · intro T stored snap parseRes hashRes hchange
    cases hashRes with
    | none => exact absurd rfl hchange
    | some h =>
      by_cases hne : h = stored
      · subst hne
        simp [modifyIfChanged] at hchange
      · cases parseRes with
        | none =>
          simp [modifyIfChanged, hne] at hchange
        | some t =>
          exact ⟨h, rfl, hne, t, rfl, by simp [modifyIfChanged, hne]⟩

/-- C8, witness: concrete ticks over a `Nat` snapshot. -/
theorem C8_cache_update_step_witness :
    modifyIfChanged none 5 7 (some 9) = (5, 7) ∧
    modifyIfChanged (some 6) 5 7 (none : Option Nat) = (6, 7) ∧
    modifyIfChanged (some 6) 5 7 (some 9) = (6, 9) ∧
    modifyIfChanged (some 5) 5 7 (some 9) = (5, 7) :=
  ⟨C8_cache_update_step.1 Nat 5 7 (some 9),
    C8_cache_update_step.2.1 Nat 5 7 6 (by decide),
    C8_cache_update_step.2.2.1 Nat 5 7 6 9 (by decide),
    C8_cache_update_step.2.2.2.1 Nat 5 7 (some 9)⟩

/-! ## Claim C10 — no re-escaping on serialization -/
/-- C10: serialization never re-applies octal escaping — the source (and
dest) bytes appear verbatim in the displayed line — so for the record
parsed from `a\040b /m ext4 rw` (whose source holds a space byte), the
serialized line splits into different fields on re-parse and does not
reproduce the record: the textual serialize-then-parse round trip fails
for records with whitespace bytes in path fields. -/
theorem C10_display_no_escaping :
    (∀ m : MountInfo,
      displayMount m = m.source ++ 32 :: m.dest ++ 32 :: m.fstype ++ 32 ::
        (if m.options = [] then defaultsBytes
         else List.intercalate [44] m.options) ++
        32 :: intToDec m.dump ++ 32 :: intToDec m.pass ∧
      (displayMount m).take m.source.length = m.source) ∧
    mountFromStr noAlias
        [97, 92, 48, 52, 48, 98, 32, 47, 109, 32, 101, 120, 116, 52, 32,
         114, 119] =
      .ok { source := [97, 32, 98], dest := [47, 109],
            fstype := [101, 120, 116, 52], options := [[114, 119]],
            dump := 0, pass := 0 } ∧
    displayMount
        { source := [97, 32, 98], dest := [47, 109],
          fstype := [101, 120, 116, 52], options := [[114, 119]],
          dump := 0, pass := 0 } =
      [97, 32, 98, 32, 47, 109, 32, 101, 120, 116, 52, 32, 114, 119, 32,
       48, 32, 48] ∧
    mountFromStr noAlias
        (displayMount
          { source := [97, 32, 98], dest := [47, 109],
            fstype := [101, 120, 116, 52], options := [[114, 119]],
            dump := 0, pass := 0 }) = .error .dumpNotNumber ∧
    mountFromStr noAlias
        (displayMount
          { source := [97, 32, 98], dest := [47, 109],
            fstype := [101, 120, 116, 52], options := [[114, 119]],
            dump := 0, pass := 0 }) ≠
      .ok { source := [97, 32, 98], dest := [47, 109],
            fstype := [101, 120, 116, 52], options := [[114, 119]],
            dump := 0, pass := 0 } := by
  refine ⟨?_, by decide, by decide, by decide, by decide⟩
  intro m
  refine ⟨rfl, ?_⟩
  rw [displayMount]
  have := List.take_left m.source
    (32 :: m.dest ++ 32 :: m.fstype ++ 32 ::
      (if m.options = [] then defaultsBytes
       else List.intercalate [44] m.options) ++
      32 :: intToDec m.dump ++ 32 :: intToDec m.pass)
  simpa using this

/-- C10, witness: the general no-escaping conjunct applied to a concrete
record. -/
theorem C10_display_no_escaping_witness :
    (displayMount
        { source := [97, 32, 98], dest := [47, 109],
          fstype := [101, 120, 116, 52], options := [[114, 119]],
          dump := 0, pass := 0 }).take 3 = [97, 32, 98] :=
  (C10_display_no_escaping.1
    { source := [97, 32, 98], dest := [47, 109],
      fstype := [101, 120, 116, 52], options := [[114, 119]],
      dump := 0, pass := 0 }).2

/-! ## Claim C9 — editable tab round trip -/
theorem stripCR_eq (l : List Nat) (h : l.getLast? ≠ some 13) :
    stripCR l = l := by
  rw [stripCR, if_neg h]

theorem linesGo_cons_ne (b : Nat) (rest acc : List Nat) (hb : b ≠ 10) :
    linesGo (b :: rest) acc = linesGo rest (b :: acc) := by
  simp [linesGo, hb]

theorem linesGo_line (l : List Nat) (rest : List Nat) (h10 : 10 ∉ l) :
    ∀ acc : List Nat,
      linesGo (l ++ 10 :: rest) acc =
        stripCR (acc.reverse ++ l) :: linesGo rest [] := by
  induction l with
  | nil =>
    intro acc
    simp [linesGo]
  | cons b l ih =>
    intro acc
    have hb : b ≠ 10 := fun h => h10 (h ▸ List.mem_cons_self b l)
    rw [List.cons_append, linesGo_cons_ne b _ acc hb,
      ih (fun hm => h10 (List.mem_cons_of_mem b hm)) (b :: acc)]
    simp

theorem linesOf_joinLines (lines : List (List Nat))
    (h : ∀ l ∈ lines, 10 ∉ l ∧ l.getLast? ≠ some 13) :
    linesOf (joinLines lines) = lines := by
  induction lines with
  | nil => rfl
  | cons l lines ih =>
    have hl := h l (by simp)
    rw [joinLines, List.foldr_cons, linesOf,
      linesGo_line l _ hl.1 [], List.reverse_nil, List.nil_append,
      stripCR_eq l hl.2]
    rw [← linesOf, ← joinLines, ih (fun x hx => h x (by simp [hx]))]

/-- A line that is a comment or blank line with no leading whitespace,
or that left-trims to a valid mount line, classifies successfully, and
its re-emission is the line itself for blanks and comments and the
canonical record form for mount lines. -/
theorem tabLine_good (l : List Nat)
    (hclass : (trimStart l = l ∧ (l = [] ∨ l.head? = some 35)) ∨
      ∃ r, mountFromStr noAlias (trimStart l) = .ok r) :
    ∃ e, tabLine noAlias l = .ok e ∧ elemDisplay e = emitLine noAlias l := by
  rcases hclass with ⟨htrim, hkind | hkind⟩ | ⟨r, hok⟩
  · subst hkind
    exact ⟨.empty, rfl, rfl⟩
  · have hne : l ≠ [] := by
      intro h
      subst h
      simp at hkind
    refine ⟨.comment l, ?_, ?_⟩
    · simp [tabLine, htrim, hne, hkind]
    · simp [emitLine, tabLine, htrim, hne, hkind]
  · have ht0 : trimStart l ≠ [] := by
      intro h0
      rw [h0, mountFromStr.eq_def] at hok
      simp [splitWS, splitWSGo] at hok
    by_cases h35 : (trimStart l).head? = some 35
    · exact ⟨.comment (trimStart l), by simp [tabLine, ht0, h35],
        by simp [emitLine, tabLine, ht0, h35]⟩
    · refine ⟨.mount r, ?_, ?_⟩
      · simp [tabLine, ht0, h35, hok, Except.map]
      · simp [emitLine, tabLine, ht0, h35, hok, Except.map, elemDisplay]

theorem mapM_tabLine_good (lines : List (List Nat))
    (h : ∀ l ∈ lines,
      (trimStart l = l ∧ (l = [] ∨ l.head? = some 35)) ∨
        ∃ r, mountFromStr noAlias (trimStart l) = .ok r) :
    ∃ elems, lines.mapM (tabLine noAlias) = .ok elems ∧
      elems.length = lines.length ∧
      tabDisplay elems = joinLines (lines.map (emitLine noAlias)) := by
  induction lines with
  | nil => exact ⟨[], rfl, rfl, rfl⟩
  | cons l lines ih =>
    obtain ⟨e, he, hdisp⟩ := tabLine_good l (h l (by simp))
    obtain ⟨elems, helems, hlen, htab⟩ :=
      ih (fun x hx => h x (by simp [hx]))
    refine ⟨e :: elems, ?_, by simp [hlen], ?_⟩
    · rw [List.mapM_cons, he, helems]
      rfl
    · rw [tabDisplay, List.foldr_cons, ← tabDisplay, htab, hdisp]
      rfl

/-- C9, counterexample: the comment line `" #c"` (leading space) is
stored left-trimmed, so parse-then-serialize re-emits `"#c\n"`, not the
original line — comments are not reproduced verbatim; likewise the
comment line `"#c\r\n"` loses its carriage return (`str::lines` strips
a `\r` before the line terminator).  In both cases the round trip is
lossy beyond record formatting. -/
theorem C9_counterexample :
    mountTabFromStr noAlias [32, 35, 99, 10] = .ok [.comment [35, 99]] ∧
    tabDisplay [.comment [35, 99]] = [35, 99, 10] ∧
    [35, 99, 10] ≠ [32, 35, 99, 10] ∧
    mountTabFromStr noAlias [35, 99, 13, 10] = .ok [.comment [35, 99]] ∧
    [35, 99, 10] ≠ [35, 99, 13, 10] := by
  decide

/-- C9 (amended): each line maps to exactly one element — `Empty` when
empty after left-trim, `Comment` holding the *left-trimmed* text when it
then starts with `#`, `Mount` otherwise — and serialization re-emits one
line per element; for inputs consisting of newline-terminated lines,
none ending in a carriage return, each line either a comment or blank
line with no leading whitespace or a line that left-trims to a valid
mount line, parse-then-serialize re-emits comment and blank lines
verbatim and mount lines in canonical record form (lossless except for
record formatting). -/
theorem C9_tab_elements_round_trip :
    (∀ resolve line, trimStart line = [] →
      tabLine resolve line = .ok .empty) ∧
    (∀ resolve line, trimStart line ≠ [] →
      (trimStart line).head? = some 35 →
      tabLine resolve line = .ok (.comment (trimStart line))) ∧
    (∀ resolve line, trimStart line ≠ [] →
      (trimStart line).head? ≠ some 35 →
      tabLine resolve line =
        (mountFromStr resolve (trimStart line)).map .mount) ∧
    (∀ resolve input, mountTabFromStr resolve input =
      (linesOf input).mapM (tabLine resolve)) ∧
    (∀ lines : List (List Nat),
      (∀ l ∈ lines, 10 ∉ l ∧ l.getLast? ≠ some 13 ∧
        ((trimStart l = l ∧ (l = [] ∨ l.head? = some 35)) ∨
          ∃ r, mountFromStr noAlias (trimStart l) = .ok r)) →
      ∃ elems, mountTabFromStr noAlias (joinLines lines) = .ok elems ∧
        elems.length = lines.length ∧
        tabDisplay elems = joinLines (lines.map (emitLine noAlias)) ∧
        (∀ l ∈ lines, trimStart l = l → (l = [] ∨ l.head? = some 35) →
          emitLine noAlias l = l)) := by
  refine ⟨?_, ?_, ?_, fun _ _ => rfl, ?_⟩
  · intro resolve line h
    simp [tabLine, h]
  · intro resolve line h1 h2
    simp [tabLine, h1, h2]
  · intro resolve line h1 h2
    simp [tabLine, h1, h2]
  · intro lines h
    rw [mountTabFromStr,
      linesOf_joinLines lines (fun l hl => ⟨(h l hl).1, (h l hl).2.1⟩)]
    obtain ⟨elems, he, hlen, htab⟩ :=
      mapM_tabLine_good lines (fun l hl => (h l hl).2.2)
    refine ⟨elems, he, hlen, htab, ?_⟩
    intro l hl htriml hkind
    rcases hkind with hkind | hkind
    · subst hkind
      rfl
    · have hne : l ≠ [] := by
        intro h0
        subst h0
        simp at hkind
      simp [emitLine, tabLine, htriml, hne, hkind, elemDisplay]

/-- C9, witness: the round trip on the three-line table
`"#c\n\n a b c d\n"` — the mount line carries leading whitespace and is
still covered. -/
theorem C9_tab_elements_round_trip_witness :
    ∃ elems, mountTabFromStr noAlias
        (joinLines [[35, 99], [], [32, 97, 32, 98, 32, 99, 32, 100]]) =
        .ok elems ∧
      elems.length =
        [[35, 99], [], [32, 97, 32, 98, 32, 99, 32, 100]].length ∧
      tabDisplay elems =
        joinLines ([[35, 99], [], [32, 97, 32, 98, 32, 99, 32, 100]].map
          (emitLine noAlias)) ∧
      (∀ l ∈ [[35, 99], [], [32, 97, 32, 98, 32, 99, 32, 100]],
        trimStart l = l → (l = [] ∨ l.head? = some 35) →
        emitLine noAlias l = l) :=
  C9_tab_elements_round_trip.2.2.2.2
    [[35, 99], [], [32, 97, 32, 98, 32, 99, 32, 100]] (by
      intro l hl
      fin_cases hl
      · exact ⟨by decide, by decide,
          Or.inl ⟨by decide, Or.inr (by decide)⟩⟩
      · exact ⟨by decide, by decide, Or.inl ⟨rfl, Or.inl rfl⟩⟩
      · exact ⟨by decide, by decide, Or.inr
          ⟨{ source := [97], dest := [98], fstype := [99],
             options := [[100]], dump := 0, pass := 0 }, by decide⟩⟩)

/-! ## Claim C3 — mount record round trip -/
theorem digit45_not_ws (b : Nat) (h : 45 ≤ b ∧ b ≤ 57) : isWS b = false := by
  simp [isWS]
  omega

/-- C3, counterexample: the line `a\040b /m ext4 rw` parses (no alias
resolution; dump/pass default to 0) to a record whose source holds a
space byte; serializing and re-parsing that record does not yield the
record back (re-parsing fails on the split-apart fields). -/
theorem C3_counterexample :
    mountFromStr noAlias
        [97, 92, 48, 52, 48, 98, 32, 47, 109, 32, 101, 120, 116, 52, 32,
         114, 119] =
      .ok { source := [97, 32, 98], dest := [47, 109],
            fstype := [101, 120, 116, 52], options := [[114, 119]],
            dump := 0, pass := 0 } ∧
    mountFromStr noAlias
        (displayMount
          { source := [97, 32, 98], dest := [47, 109],
            fstype := [101, 120, 116, 52], options := [[114, 119]],
            dump := 0, pass := 0 }) ≠
      .ok { source := [97, 32, 98], dest := [47, 109],
            fstype := [101, 120, 116, 52], options := [[114, 119]],
            dump := 0, pass := 0 } := by
  decide

/-- C3 (amended): for every valid mount line whose source does not
trigger alias resolution (parsing succeeds under the always-failing
resolver) and whose decoded source and dest contain no whitespace and no
backslash bytes, parse-then-serialize yields a line that parses back to
a structurally equal record; a record with an empty options list
serializes its options field as the literal `defaults`, so the
serialized options field is never empty. -/
theorem C3_mount_round_trip :
    (∀ m : MountInfo, m.options = [] →
      displayMount m = m.source ++ 32 :: m.dest ++ 32 :: m.fstype ++ 32 ::
        defaultsBytes ++ 32 :: intToDec m.dump ++ 32 :: intToDec m.pass) ∧
    (∀ (line : List Nat) (r : MountInfo),
      mountFromStr noAlias line = .ok r →
      (∀ b ∈ r.source, isWS b = false ∧ b ≠ 92) →
      (∀ b ∈ r.dest, isWS b = false ∧ b ≠ 92) →
      mountFromStr noAlias (displayMount r) = .ok r) := by
  constructor
  · intro m h
    rw [displayMount, if_pos h]
  intro line r hok hsrc hdst
  obtain ⟨sF, dF, fF, oF, rest, hsplit, hdp, hfst, hopt, hpath, hpd, hud⟩ :=
    mountFromStr_ok noAlias line r hok
  obtain ⟨path, hpv, hu, hbranch⟩ := hpath
  -- the always-failing resolver cannot have produced the source
  rcases hbranch with ⟨hsw, hsreq⟩ | ⟨-, habs⟩
  swap
  · exact absurd habs (by simp [noAlias, throw, throwThe, MonadExceptOf.throw])
  subst hsreq
  -- field well-formedness, from the original split
  have hmem := splitWS_mem line
  rw [hsplit] at hmem
  have hsF := hmem sF (by simp)
  have hdF := hmem dF (by simp)
  have hfF := hmem fF (by simp)
  have hoF := hmem oF (by simp)
  have hsrc_ne : r.source ≠ [] := parse_value_ne_nil sF r.source hpv hsF.1
  have hdst_ne : r.dest ≠ [] := parse_value_ne_nil dF r.dest hpd hdF.1
  -- dump/pass bounds
  obtain ⟨hdb, hpb, -⟩ := dumpPass_ok rest r.dump r.pass hdp
  -- the serialized options field is the original options field
  have hsplitOn_ne : List.splitOn 44 oF ≠ [] := by
    show List.splitOnP (fun c : Nat => c == 44) oF ≠ []
    exact List.splitOnP_ne_nil _ _
  have hopts_ser :
      (if r.options = [] then defaultsBytes
        else List.intercalate [44] r.options) = oF := by
    rw [hopt, if_neg hsplitOn_ne]
    exact List.intercalate_splitOn oF 44
  -- number byte-strings are nonempty, digit-only fields
  have hdump_mem := intToDec_mem r.dump
  have hpass_mem := intToDec_mem r.pass
  have hdump_ws : ∀ b ∈ intToDec r.dump, isWS b = false :=
    fun b hb => digit45_not_ws b (hdump_mem b hb)
  have hpass_ws : ∀ b ∈ intToDec r.pass, isWS b = false :=
    fun b hb => digit45_not_ws b (hpass_mem b hb)
  -- split of the serialized line
  have hsplit' : splitWS (displayMount r) =
      [r.source, r.dest, fF, oF, intToDec r.dump, intToDec r.pass] := by
    rw [displayMount, hopts_ser, hfst]
    simp only [List.cons_append, List.append_assoc]
    rw [splitWS_field_append r.source _ hsrc_ne
      (fun b hb => (hsrc b hb).1)]
    rw [splitWS_field_append r.dest _ hdst_ne
      (fun b hb => (hdst b hb).1)]
    rw [splitWS_field_append fF _ hfF.1 hfF.2]
    rw [splitWS_field_append oF _ hoF.1 hoF.2]
    rw [splitWS_field_append (intToDec r.dump) _ (intToDec_ne_nil r.dump)
      hdump_ws]
    rw [splitWS_field_single (intToDec r.pass) (intToDec_ne_nil r.pass)
      hpass_ws]
  -- re-parse
  rw [mountFromStr.eq_def, hsplit']
  dsimp only
  rw [dumpPass, parseI32_intToDec r.dump hdb.1 hdb.2]
  dsimp only
  rw [parseI32_intToDec r.pass hpb.1 hpb.2]
  dsimp only
  rw [parse_value_no_escape r.source (fun b hb => (hsrc b hb).2)]
  dsimp only
  rw [if_pos hu]
  rw [if_neg (by rw [hsw]; simp)]
  dsimp only
  rw [parse_value_no_escape r.dest (fun b hb => (hdst b hb).2)]
  dsimp only
  rw [if_pos hud]
  rw [← hfst, ← hopt]

/-- C3, witness: the round trip on the line `a b c d`. -/
theorem C3_mount_round_trip_witness :
    mountFromStr noAlias
        (displayMount
          { source := [97], dest := [98], fstype := [99],
            options := [[100]], dump := 0, pass := 0 }) =
      .ok { source := [97], dest := [98], fstype := [99],
            options := [[100]], dump := 0, pass := 0 } :=
  C3_mount_round_trip.2 [97, 32, 98, 32, 99, 32, 100]
    { source := [97], dest := [98], fstype := [99],
      options := [[100]], dump := 0, pass := 0 }
    (by decide) (by decide) (by decide)

end ProcMounts
